import Mathlib

/-!
Verification of the Trips listing component (`src/Components/Api/Trips.tsx`).

The component fetches a static `trips.json` document, normalizes each record
to four fields, derives the distinct unit-style facets, sorts by check-in
date, filters by selected style and search query, and paginates the filtered
list 9 cards per page.  Everything below is a shallow embedding of that
pipeline: pure functions for the derived values (`filteredTrips`,
`currentTrips`, `totalPages`), an explicit state record for the React state
hooks, an action type for the user-facing controls, and a render function for
the loading / error / content views.
-/

namespace Trips

/-- A trip record, reduced to the four fields the component consumes
(`interface Trip` in `Trips.tsx`). -/
structure Trip where
  heroImage : String
  unitName : String
  unitStyleName : String
  checkInDate : String
  deriving Repr, DecidableEq

/-- The payload shape of `trips.json` (`interface TripResponse`). -/
structure TripResponse where
  tripSet : List Trip
  deriving Repr, DecidableEq

/-! ### Date parsing

`Trips.tsx` compares trips via `new Date(trip.checkInDate).getTime()`.  The
dataset uses ISO-8601 UTC timestamps (`"2022-12-01T00:00:00.000Z"` in the
repository's test fixture).  `getTime` models JavaScript date parsing for
that ISO profile — a full timestamp with milliseconds and `Z`, or a bare
calendar date, both interpreted in UTC — returning `none` where JavaScript
yields `NaN` (any other string). -/

/-- Numeric value of a decimal digit character, `none` otherwise. -/
def digitVal (c : Char) : Option Nat :=
  if c.isDigit then some (c.toNat - 48) else none

/-- Two-digit decimal number from two characters. -/
def twoDigits (a b : Char) : Option Nat :=
  match digitVal a, digitVal b with
  | some x, some y => some (10 * x + y)
  | _, _ => none

/-- Four-digit decimal number from four characters. -/
def fourDigits (a b c d : Char) : Option Nat :=
  match twoDigits a b, twoDigits c d with
  | some x, some y => some (100 * x + y)
  | _, _ => none

/-- Three-digit decimal number from three characters. -/
def threeDigits (a b c : Char) : Option Nat :=
  match digitVal a, twoDigits b c with
  | some x, some y => some (100 * x + y)
  | _, _ => none

/-- Whether `y` is a leap year in the proleptic Gregorian calendar. -/
def isLeap (y : Nat) : Bool :=
  (y % 4 == 0 && y % 100 != 0) || y % 400 == 0

/-- Number of days in month `m` of year `y` (months are 1-based). -/
def daysInMonth (y m : Nat) : Nat :=
  if m == 2 then (if isLeap y then 29 else 28)
  else if m == 4 || m == 6 || m == 9 || m == 11 then 30
  else 31

/-- Days from the Unix epoch (1970-01-01) to the civil date `y-m-d`,
proleptic Gregorian calendar (Hinnant's `days_from_civil`). -/
def daysFromCivil (y m d : Int) : Int :=
  let yAdj : Int := if m ≤ 2 then y - 1 else y
  let era : Int := (if 0 ≤ yAdj then yAdj else yAdj - 399) / 400
  let yoe : Int := yAdj - era * 400
  let mp : Int := (m + 9) % 12
  let doy : Int := (153 * mp + 2) / 5 + d - 1
  let doe : Int := yoe * 365 + yoe / 4 - yoe / 100 + doy
  era * 146097 + doe - 719468

/-- Milliseconds since the Unix epoch for a validated UTC date-time. -/
def utcMillis (y mo d h mi s ms : Nat) : Option Int :=
  if 1 ≤ mo && mo ≤ 12 && 1 ≤ d && d ≤ daysInMonth y mo
      && h ≤ 23 && mi ≤ 59 && s ≤ 59 then
    some (daysFromCivil y mo d * 86400000
      + h * 3600000 + mi * 60000 + s * 1000 + ms)
  else
    none

/-- `new Date(str).getTime()` on the ISO-8601 UTC profile used by the app
(`YYYY-MM-DDTHH:MM:SS.sssZ` or `YYYY-MM-DD`); `none` models `NaN`. -/
def getTime (str : String) : Option Int :=
  match str.toList with
  | [y1, y2, y3, y4, '-', m1, m2, '-', d1, d2] =>
    match fourDigits y1 y2 y3 y4, twoDigits m1 m2, twoDigits d1 d2 with
    | some y, some mo, some d => utcMillis y mo d 0 0 0 0
    | _, _, _ => none
  | [y1, y2, y3, y4, '-', m1, m2, '-', d1, d2, 'T',
     h1, h2, ':', n1, n2, ':', s1, s2, '.', f1, f2, f3, 'Z'] =>
    match fourDigits y1 y2 y3 y4, twoDigits m1 m2, twoDigits d1 d2,
        twoDigits h1 h2, twoDigits n1 n2, twoDigits s1 s2,
        threeDigits f1 f2 f3 with
    | some y, some mo, some d, some h, some mi, some s, some ms =>
      utcMillis y mo d h mi s ms
    | _, _, _, _, _, _, _ => none
  | _ => none

/-- Timestamp of a trip's check-in date, defaulting to 0 for unparsable
dates; only used to state properties under a validity hypothesis. -/
def timeD (t : Trip) : Int :=
  (getTime t.checkInDate).getD 0

/-- The two values of the `sortOrder` state hook. -/
inductive SortOrder where
  | ascending
  | descending
  deriving Repr, DecidableEq

/-- The sort comparator of `Trips.tsx`:
`sortOrder === "ascending" ? dateA - dateB : dateB - dateA`.
When either date is `NaN` the JavaScript subtraction is `NaN`, which the
ECMAScript `SortCompare` operation treats as `+0`; the `none` branches
return 0 accordingly. -/
def tripCmp (o : SortOrder) (a b : Trip) : Int :=
  match getTime a.checkInDate, getTime b.checkInDate with
  | some x, some y =>
    match o with
    | .ascending => x - y
    | .descending => y - x
  | _, _ => 0

/-! ### Stable sorting

`Array.prototype.sort` is a stable sort: `a` precedes `b` when the
comparator is negative and original order is kept when it is zero.  For a
consistent comparator the stable sorted order is unique, so any stable sort
is a faithful model; we use insertion sort. -/

/-- Insert `x` in front of the first element `y` with `le x y`. -/
def insertSorted {α : Type} (le : α → α → Bool) (x : α) : List α → List α
  | [] => [x]
  | y :: ys => if le x y then x :: y :: ys else y :: insertSorted le x ys

/-- Stable insertion sort with respect to the boolean relation `le`. -/
def stableSortBy {α : Type} (le : α → α → Bool) : List α → List α
  | [] => []
  | x :: xs => insertSorted le x (stableSortBy le xs)

/-- `[...trips].sort(comparator)` for a given sort order. -/
def sortTrips (o : SortOrder) (l : List Trip) : List Trip :=
  stableSortBy (fun a b => tripCmp o a b ≤ 0) l

/-! ### Filtering -/

/-- ASCII lower-casing of a string, modelling `String.prototype.toLowerCase`
on the ASCII range the dataset uses. -/
def lowerStr (s : String) : String :=
  String.mk (s.data.map Char.toLower)

/-- `a.toLowerCase().includes(b.toLowerCase())`: case-insensitive substring
containment. -/
def containsIgnoreCase (a b : String) : Bool :=
  decide ((lowerStr b).toList <:+: (lowerStr a).toList)

/-- The retention predicate of `filteredTrips` in `Trips.tsx`:
`matchesStyle && matchesSearch`. -/
def keepTrip (selectedStyle searchQuery : String) (t : Trip) : Bool :=
  (selectedStyle == "All" || t.unitStyleName == selectedStyle)
    && containsIgnoreCase t.unitName searchQuery

/-- `trips.filter(...)` — the `filteredTrips` derived value. -/
def filterTrips (trips : List Trip) (selectedStyle searchQuery : String) :
    List Trip :=
  trips.filter (keepTrip selectedStyle searchQuery)

/-- The spec's wording of the retention predicate: retain entries where
`(selectedFacet == "All" OR entry.unitStyleName == selectedFacet)` AND
`(searchQuery is empty OR entry.unitName case-insensitively contains
searchQuery)`.  Stated separately from `keepTrip` to compare the spec's
predicate with the code's. -/
def specKeep (selectedStyle searchQuery : String) (t : Trip) : Bool :=
  (selectedStyle == "All" || t.unitStyleName == selectedStyle)
    && (searchQuery == "" || containsIgnoreCase t.unitName searchQuery)

/-! ### Pagination -/

/-- `tripsPerPage` constant. -/
def tripsPerPage : Nat := 9

/-- `Array.prototype.slice(start, end)` with JavaScript's clamping rules
(negative indices count from the end). -/
def jsSlice (l : List Trip) (start stop : Int) : List Trip :=
  let len : Int := l.length
  let s : Int := if start < 0 then max (len + start) 0 else min start len
  let e : Int := if stop < 0 then max (len + stop) 0 else min stop len
  (l.drop s.toNat).take (e - s).toNat

/-- The `currentTrips` slice:
`filteredTrips.slice((currentPage-1)*9, currentPage*9)`. -/
def currentTripsOf (filtered : List Trip) (currentPage : Int) : List Trip :=
  jsSlice filtered (currentPage * tripsPerPage - tripsPerPage)
    (currentPage * tripsPerPage)

/-- `totalPages = Math.ceil(filteredTrips.length / tripsPerPage)`. -/
def totalPagesOf (filtered : List Trip) : Nat :=
  (filtered.length + tripsPerPage - 1) / tripsPerPage

/-! ### Facets -/

/-- Insertion-order deduplication, modelling `Array.from(new Set(xs))`:
emit each string the first time it is seen. -/
def dedupFirstSeen (seen : List String) : List String → List String
  | [] => []
  | s :: rest =>
    if s ∈ seen then dedupFirstSeen seen rest
    else s :: dedupFirstSeen (s :: seen) rest

/-- The facet list stored by the loader:
`setUnitStyles(["All", ...Array.from(new Set(data.map(t => t.unitStyleName)))])`. -/
def unitStylesOf (trips : List Trip) : List String :=
  "All" :: dedupFirstSeen [] (trips.map Trip.unitStyleName)

/-! ### Component state

One record per `useState` hook of the component.  `currentPage` is a plain
JavaScript number, so it is modelled as an `Int`. -/

/-- The component's state hooks. -/
structure AppState where
  trips : List Trip
  loading : Bool
  error : Option String
  sortOrder : SortOrder
  unitStyles : List String
  selectedStyle : String
  searchQuery : String
  currentPage : Int
  deriving Repr, DecidableEq

/-- The initial values passed to `useState`. -/
def initState : AppState :=
  { trips := []
    loading := true
    error := none
    sortOrder := .ascending
    unitStyles := []
    selectedStyle := "All"
    searchQuery := ""
    currentPage := 1 }

/-- The fixed user-facing failure message. -/
def failMessage : String := "Failed to load data. Please try again later."

/-- Outcome of the mount-time fetch: a parsed payload, a non-OK HTTP status
(the `!response.ok` throw), or a rejected request. -/
inductive FetchOutcome where
  | ok (data : TripResponse)
  | httpError
  | rejected
  deriving Repr, DecidableEq

/-- The normalizing projection applied to the payload
(`data.tripSet.map(trip => ({heroImage: ..., unitName: ..., ...}))`). -/
def simplifyTrips (data : TripResponse) : List Trip :=
  data.tripSet.map fun trip =>
    { heroImage := trip.heroImage
      unitName := trip.unitName
      unitStyleName := trip.unitStyleName
      checkInDate := trip.checkInDate }

/-- The fetch effect's continuation: on success store the facet list and the
ascending-sorted simplified trips and clear `loading`; on any failure store
the fixed error message and clear `loading`. -/
def loadStep (o : FetchOutcome) (s : AppState) : AppState :=
  match o with
  | .ok data =>
    let simplified := simplifyTrips data
    { s with
      unitStyles := unitStylesOf simplified
      trips := sortTrips .ascending simplified
      loading := false }
  | .httpError => { s with error := some failMessage, loading := false }
  | .rejected => { s with error := some failMessage, loading := false }

/-- The `filteredTrips` derived value of a state. -/
def filteredTrips (s : AppState) : List Trip :=
  filterTrips s.trips s.selectedStyle s.searchQuery

/-- The `totalPages` derived value of a state. -/
def totalPages (s : AppState) : Nat :=
  totalPagesOf (filteredTrips s)

/-- The `currentTrips` derived value of a state. -/
def currentTrips (s : AppState) : List Trip :=
  currentTripsOf (filteredTrips s) s.currentPage

/-! ### User actions

One constructor per interactive control.  Pagination clicks are guarded by
the `disabled` attribute of the corresponding control: a disabled control
does not fire, which the model expresses by leaving the state unchanged.
`setSort` also performs the re-sort `useEffect` that runs when `sortOrder`
changes. -/

/-- The user-facing controls of the ready view. -/
inductive UiAction where
  | setSearch (q : String)
  | setStyle (f : String)
  | setSort (o : SortOrder)
  | pageFirst
  | pagePrev
  | pageNext
  | pageLast
  | pageItem (n : Nat)
  deriving Repr, DecidableEq

/-- `handlePageChange`: `setCurrentPage(pageNumber)`, with no clamping. -/
def handlePageChange (pageNumber : Int) (s : AppState) : AppState :=
  { s with currentPage := pageNumber }

/-- Apply one user action to the state. -/
def applyAction (a : UiAction) (s : AppState) : AppState :=
  match a with
  | .setSearch q => { s with searchQuery := q }
  | .setStyle f => { s with selectedStyle := f }
  | .setSort o =>
    { s with sortOrder := o, trips := sortTrips o s.trips }
  | .pageFirst =>
    if s.currentPage = 1 then s else handlePageChange 1 s
  | .pagePrev =>
    if s.currentPage = 1 then s else handlePageChange (s.currentPage - 1) s
  | .pageNext =>
    if s.currentPage = (totalPages s : Int) then s
    else handlePageChange (s.currentPage + 1) s
  | .pageLast =>
    if s.currentPage = (totalPages s : Int) then s
    else handlePageChange (totalPages s : Int) s
  | .pageItem n =>
    if 1 ≤ n ∧ n ≤ totalPages s then handlePageChange (n : Int) s else s

/-- Apply a sequence of user actions from left to right. -/
def applyActions (acts : List UiAction) (s : AppState) : AppState :=
  acts.foldl (fun st a => applyAction a st) s

/-! ### Rendering -/

/-- Disabled flags of the four relative pagination controls. -/
structure PagFlags where
  firstDisabled : Bool
  prevDisabled : Bool
  nextDisabled : Bool
  lastDisabled : Bool
  deriving Repr, DecidableEq

/-- The three renderable views: the loading alert, the error alert, and the
content grid (trip cards of the current page plus pagination flags). -/
inductive View where
  | loadingAlert
  | errorBanner (msg : String)
  | content (cards : List Trip) (pag : PagFlags)
  deriving Repr, DecidableEq

/-- The component's render function: `loading` wins, then `error`, then the
content grid over `currentTrips` with the pagination controls' disabled
flags (`currentPage === 1` for First/Prev, `currentPage === totalPages` for
Next/Last). -/
def renderTrips (s : AppState) : View :=
  if s.loading then .loadingAlert
  else
    match s.error with
    | some msg => .errorBanner msg
    | none =>
      .content (currentTrips s)
        { firstDisabled := s.currentPage == 1
          prevDisabled := s.currentPage == 1
          nextDisabled := s.currentPage == (totalPages s : Int)
          lastDisabled := s.currentPage == (totalPages s : Int) }

/-- The trip cards of a view (empty for the loading and error alerts). -/
def viewCards : View → List Trip
  | .content cards _ => cards
  | _ => []

/-- The pagination flags of a view, when it shows the content grid. -/
def viewPag : View → Option PagFlags
  | .content _ pag => some pag
  | _ => none

/-! ## Lemmas about the stable sort -/

section SortLemmas

variable {α : Type} (le : α → α → Bool)

theorem insertSorted_perm (x : α) (l : List α) :
    List.Perm (insertSorted le x l) (x :: l) := by
  induction l with
  | nil => exact List.Perm.refl _
  | cons y ys ih =>
    by_cases h : le x y = true
    · rw [insertSorted, if_pos h]
    · rw [insertSorted, if_neg h]
      exact (ih.cons y).trans (List.Perm.swap x y ys)

theorem stableSortBy_perm (l : List α) : List.Perm (stableSortBy le l) l := by
  induction l with
  | nil => exact List.Perm.refl _
  | cons x xs ih =>
    exact (insertSorted_perm le x (stableSortBy le xs)).trans (ih.cons x)

theorem mem_insertSorted {x y : α} {l : List α} :
    y ∈ insertSorted le x l ↔ y = x ∨ y ∈ l := by
  rw [(insertSorted_perm le x l).mem_iff, List.mem_cons]

theorem mem_stableSortBy {x : α} {l : List α} :
    x ∈ stableSortBy le l ↔ x ∈ l :=
  (stableSortBy_perm le l).mem_iff

theorem chain'_cons_insertSorted
    (htot : ∀ a b, le a b = true ∨ le b a = true) (x : α) :
    ∀ (l : List α) (y : α), le y x = true →
      List.Chain' (fun a b => le a b = true) (y :: l) →
      List.Chain' (fun a b => le a b = true) (y :: insertSorted le x l) := by
  intro l
  induction l with
  | nil =>
    intro y hyx _
    rw [insertSorted, List.chain'_cons]
    exact ⟨hyx, List.chain'_singleton x⟩
  | cons z zs ih =>
    intro y hyx hc
    rw [List.chain'_cons] at hc
    by_cases h : le x z = true
    · rw [insertSorted, if_pos h, List.chain'_cons]
      exact ⟨hyx, List.chain'_cons.mpr ⟨h, hc.2⟩⟩
    · have hzx : le z x = true := (htot x z).resolve_left h
      rw [insertSorted, if_neg h, List.chain'_cons]
      exact ⟨hc.1, ih z hzx hc.2⟩

theorem chain'_insertSorted
    (htot : ∀ a b, le a b = true ∨ le b a = true) (x : α) (l : List α)
    (hc : List.Chain' (fun a b => le a b = true) l) :
    List.Chain' (fun a b => le a b = true) (insertSorted le x l) := by
  cases l with
  | nil => exact List.chain'_singleton x
  | cons y ys =>
    by_cases h : le x y = true
    · rw [insertSorted, if_pos h, List.chain'_cons]
      exact ⟨h, hc⟩
    · have hyx : le y x = true := (htot x y).resolve_left h
      rw [insertSorted, if_neg h]
      exact chain'_cons_insertSorted le htot x ys y hyx hc

theorem chain'_stableSortBy
    (htot : ∀ a b, le a b = true ∨ le b a = true) (l : List α) :
    List.Chain' (fun a b => le a b = true) (stableSortBy le l) := by
  induction l with
  | nil => exact List.chain'_nil
  | cons x xs ih => exact chain'_insertSorted le htot x _ ih

theorem stableSortBy_of_chain' :
    ∀ l : List α, List.Chain' (fun a b => le a b = true) l →
      stableSortBy le l = l := by
  intro l
  induction l with
  | nil => intro _; rfl
  | cons x xs ih =>
    intro hc
    rw [stableSortBy, ih hc.tail]
    cases xs with
    | nil => rfl
    | cons y ys =>
      rw [List.chain'_cons] at hc
      rw [insertSorted, if_pos hc.1]

theorem stableSortBy_idem
    (htot : ∀ a b, le a b = true ∨ le b a = true) (l : List α) :
    stableSortBy le (stableSortBy le l) = stableSortBy le l :=
  stableSortBy_of_chain' le _ (chain'_stableSortBy le htot l)

theorem pairwise_insertSorted (P : α → Prop)
    (htot : ∀ a b, P a → P b → le a b = true ∨ le b a = true)
    (htrans : ∀ a b c, P a → P b → P c →
      le a b = true → le b c = true → le a c = true)
    (x : α) (hx : P x) :
    ∀ l : List α, (∀ y ∈ l, P y) →
      List.Pairwise (fun a b => le a b = true) l →
      List.Pairwise (fun a b => le a b = true) (insertSorted le x l) := by
  intro l
  induction l with
  | nil =>
    intro _ _
    rw [insertSorted]
    exact List.pairwise_singleton _ x
  | cons y ys ih =>
    intro hl hpl
    rw [List.pairwise_cons] at hpl
    have hy : P y := hl y (List.mem_cons_self y ys)
    have hys : ∀ z ∈ ys, P z := fun z hz => hl z (List.mem_cons_of_mem y hz)
    by_cases h : le x y = true
    · rw [insertSorted, if_pos h, List.pairwise_cons]
      refine ⟨?_, List.pairwise_cons.mpr ⟨hpl.1, hpl.2⟩⟩
      intro z hz
      rcases List.mem_cons.mp hz with rfl | hz2
      · exact h
      · exact htrans x y z hx hy (hys z hz2) h (hpl.1 z hz2)
    · have hyx : le y x = true := (htot x y hx hy).resolve_left h
      rw [insertSorted, if_neg h, List.pairwise_cons]
      refine ⟨?_, ih hys hpl.2⟩
      intro z hz
      rcases (mem_insertSorted le).mp hz with rfl | hz2
      · exact hyx
      · exact hpl.1 z hz2

theorem pairwise_stableSortBy (P : α → Prop)
    (htot : ∀ a b, P a → P b → le a b = true ∨ le b a = true)
    (htrans : ∀ a b c, P a → P b → P c →
      le a b = true → le b c = true → le a c = true) :
    ∀ l : List α, (∀ y ∈ l, P y) →
      List.Pairwise (fun a b => le a b = true) (stableSortBy le l) := by
  intro l
  induction l with
  | nil => intro _; exact List.Pairwise.nil
  | cons x xs ih =>
    intro hl
    refine pairwise_insertSorted le P htot htrans x
      (hl x (List.mem_cons_self x xs)) _ ?_
      (ih fun y hy => hl y (List.mem_cons_of_mem x hy))
    intro y hy
    exact hl y (List.mem_cons_of_mem x ((mem_stableSortBy le).mp hy))

end SortLemmas

/-! ## Lemmas about the trip comparator -/

/-- All check-in dates in the list parse to timestamps (no `NaN`). -/
def ValidDates (l : List Trip) : Prop :=
  ∀ t ∈ l, (getTime t.checkInDate).isSome = true

instance (l : List Trip) : Decidable (ValidDates l) :=
  List.decidableBAll _ l

theorem tripCmp_asc_eq {a b : Trip}
    (ha : (getTime a.checkInDate).isSome = true)
    (hb : (getTime b.checkInDate).isSome = true) :
    tripCmp .ascending a b = timeD a - timeD b := by
  obtain ⟨x, hx⟩ := Option.isSome_iff_exists.mp ha
  obtain ⟨y, hy⟩ := Option.isSome_iff_exists.mp hb
  simp [tripCmp, timeD, hx, hy]

theorem tripCmp_desc_eq {a b : Trip}
    (ha : (getTime a.checkInDate).isSome = true)
    (hb : (getTime b.checkInDate).isSome = true) :
    tripCmp .descending a b = timeD b - timeD a := by
  obtain ⟨x, hx⟩ := Option.isSome_iff_exists.mp ha
  obtain ⟨y, hy⟩ := Option.isSome_iff_exists.mp hb
  simp [tripCmp, timeD, hx, hy]

theorem tripCmp_total (o : SortOrder) (a b : Trip) :
    tripCmp o a b ≤ 0 ∨ tripCmp o b a ≤ 0 := by
  unfold tripCmp
  cases getTime a.checkInDate <;> cases getTime b.checkInDate <;>
    cases o <;> simp <;> omega

/-- The boolean comparator-order used by `sortTrips`. -/
theorem sortTrips_def (o : SortOrder) (l : List Trip) :
    sortTrips o l = stableSortBy (fun a b => decide (tripCmp o a b ≤ 0)) l :=
  rfl

theorem tripLe_total (o : SortOrder) :
    ∀ a b : Trip, decide (tripCmp o a b ≤ 0) = true
      ∨ decide (tripCmp o b a ≤ 0) = true := by
  intro a b
  rcases tripCmp_total o a b with h | h
  · exact Or.inl (decide_eq_true h)
  · exact Or.inr (decide_eq_true h)

theorem tripLe_trans (o : SortOrder) :
    ∀ a b c : Trip,
      (getTime a.checkInDate).isSome = true →
      (getTime b.checkInDate).isSome = true →
      (getTime c.checkInDate).isSome = true →
      decide (tripCmp o a b ≤ 0) = true →
      decide (tripCmp o b c ≤ 0) = true →
      decide (tripCmp o a c ≤ 0) = true := by
  intro a b c ha hb hc h1 h2
  rw [decide_eq_true_eq] at h1 h2
  apply decide_eq_true
  cases o with
  | ascending =>
    rw [tripCmp_asc_eq ha hb] at h1
    rw [tripCmp_asc_eq hb hc] at h2
    rw [tripCmp_asc_eq ha hc]
    omega
  | descending =>
    rw [tripCmp_desc_eq ha hb] at h1
    rw [tripCmp_desc_eq hb hc] at h2
    rw [tripCmp_desc_eq ha hc]
    omega

theorem sortTrips_perm (o : SortOrder) (l : List Trip) :
    List.Perm (sortTrips o l) l :=
  stableSortBy_perm _ l

theorem sortTrips_pairwise_asc {l : List Trip} (hv : ValidDates l) :
    (sortTrips .ascending l).Pairwise (fun a b => timeD a ≤ timeD b) := by
  have hpw := pairwise_stableSortBy (fun a b => decide (tripCmp .ascending a b ≤ 0))
    (fun t => (getTime t.checkInDate).isSome = true)
    (fun a b _ _ => tripLe_total .ascending a b)
    (tripLe_trans .ascending) l hv
  refine List.Pairwise.imp_of_mem ?_ hpw
  intro a b hma hmb hab
  have ha := hv a ((stableSortBy_perm _ l).mem_iff.mp hma)
  have hb := hv b ((stableSortBy_perm _ l).mem_iff.mp hmb)
  rw [decide_eq_true_eq, tripCmp_asc_eq ha hb] at hab
  omega

theorem sortTrips_pairwise_desc {l : List Trip} (hv : ValidDates l) :
    (sortTrips .descending l).Pairwise (fun a b => timeD b ≤ timeD a) := by
  have hpw := pairwise_stableSortBy (fun a b => decide (tripCmp .descending a b ≤ 0))
    (fun t => (getTime t.checkInDate).isSome = true)
    (fun a b _ _ => tripLe_total .descending a b)
    (tripLe_trans .descending) l hv
  refine List.Pairwise.imp_of_mem ?_ hpw
  intro a b hma hmb hab
  have ha := hv a ((stableSortBy_perm _ l).mem_iff.mp hma)
  have hb := hv b ((stableSortBy_perm _ l).mem_iff.mp hmb)
  rw [decide_eq_true_eq, tripCmp_desc_eq ha hb] at hab
  omega

/-! ## Lemmas about filtering -/

theorem containsIgnoreCase_empty (a : String) :
    containsIgnoreCase a "" = true := by
  apply decide_eq_true
  show (lowerStr "").toList <:+: (lowerStr a).toList
  have h : (lowerStr "").toList = [] := rfl
  rw [h]
  exact List.nil_infix

theorem keepTrip_eq_specKeep (f q : String) (t : Trip) :
    keepTrip f q t = specKeep f q t := by
  unfold keepTrip specKeep
  by_cases hq : q = ""
  · subst hq
    rw [containsIgnoreCase_empty]
    simp
  · have hq2 : (q == "") = false := beq_eq_false_iff_ne.mpr hq
    rw [hq2]
    simp

theorem filterTrips_eq_spec (l : List Trip) (f q : String) :
    filterTrips l f q = l.filter (specKeep f q) :=
  List.filter_congr fun t _ => keepTrip_eq_specKeep f q t

theorem filterTrips_all_empty (l : List Trip) :
    filterTrips l "All" "" = l := by
  apply List.filter_eq_self.mpr
  intro t _
  unfold keepTrip
  rw [containsIgnoreCase_empty]
  simp

theorem filterTrips_sublist (l : List Trip) (f q : String) :
    (filterTrips l f q).Sublist l :=
  List.filter_sublist l

theorem filterTrips_style {l : List Trip} {f q : String} (hf : f ≠ "All")
    {t : Trip} (ht : t ∈ filterTrips l f q) : t.unitStyleName = f := by
  have hk := (List.mem_filter.mp ht).2
  unfold keepTrip at hk
  have hf2 : (f == "All") = false := beq_eq_false_iff_ne.mpr hf
  rw [hf2] at hk
  simp only [Bool.false_or, Bool.and_eq_true, beq_iff_eq] at hk
  exact hk.1

/-! ## Lemmas about the facet list -/

theorem mem_dedupFirstSeen :
    ∀ (l seen : List String) (x : String),
      x ∈ dedupFirstSeen seen l ↔ x ∈ l ∧ x ∉ seen := by
  intro l
  induction l with
  | nil => intro seen x; simp [dedupFirstSeen]
  | cons s rest ih =>
    intro seen x
    by_cases h : s ∈ seen
    · rw [dedupFirstSeen, if_pos h, ih]
      constructor
      · rintro ⟨hx, hns⟩
        exact ⟨List.mem_cons_of_mem s hx, hns⟩
      · rintro ⟨hx, hns⟩
        rcases List.mem_cons.mp hx with rfl | hx2
        · exact absurd h hns
        · exact ⟨hx2, hns⟩
    · rw [dedupFirstSeen, if_neg h, List.mem_cons, ih]
      constructor
      · rintro (rfl | ⟨hx, hns⟩)
        · exact ⟨List.mem_cons_self _ _, h⟩
        · exact ⟨List.mem_cons_of_mem s hx,
            fun hc => hns (List.mem_cons_of_mem s hc)⟩
      · rintro ⟨hx, hns⟩
        rcases List.mem_cons.mp hx with rfl | hx2
        · exact Or.inl rfl
        · by_cases hxs : x = s
          · exact Or.inl hxs
          · exact Or.inr ⟨hx2, fun hc => (List.mem_cons.mp hc).elim hxs hns⟩

theorem nodup_dedupFirstSeen :
    ∀ (l seen : List String), (dedupFirstSeen seen l).Nodup := by
  intro l
  induction l with
  | nil => intro seen; simp [dedupFirstSeen]
  | cons s rest ih =>
    intro seen
    by_cases h : s ∈ seen
    · rw [dedupFirstSeen, if_pos h]
      exact ih seen
    · rw [dedupFirstSeen, if_neg h]
      refine List.nodup_cons.mpr ⟨?_, ih (s :: seen)⟩
      intro hc
      exact ((mem_dedupFirstSeen rest (s :: seen) s).mp hc).2
        (List.mem_cons_self s seen)

theorem sublist_dedupFirstSeen :
    ∀ (l seen : List String), (dedupFirstSeen seen l).Sublist l := by
  intro l
  induction l with
  | nil => intro seen; simp [dedupFirstSeen]
  | cons s rest ih =>
    intro seen
    by_cases h : s ∈ seen
    · rw [dedupFirstSeen, if_pos h]
      exact (ih seen).trans (List.sublist_cons_self s rest)
    · rw [dedupFirstSeen, if_neg h]
      exact (ih (s :: seen)).cons₂ s

/-! ## Lemmas about pagination -/

theorem jsSlice_nonneg (l : List Trip) (a b : Int) (ha : 0 ≤ a) (hb : 0 ≤ b) :
    jsSlice l a b = (l.drop a.toNat).take (b.toNat - a.toNat) := by
  simp only [jsSlice]
  rw [if_neg (by omega), if_neg (by omega)]
  rcases le_or_lt (l.length : Int) a with hlen | hlen
  · rw [min_eq_right hlen]
    have h1 : (l.length : Int).toNat = l.length := by omega
    have h2 : l.length ≤ a.toNat := by omega
    rw [h1, List.drop_length, List.drop_eq_nil_of_le h2, List.take_nil,
      List.take_nil]
  · rw [min_eq_left (le_of_lt hlen)]
    rcases le_or_lt b (l.length : Int) with hb2 | hb2
    · rw [min_eq_left hb2]
      have h3 : (b - a).toNat = b.toNat - a.toNat := by omega
      rw [h3]
    · rw [min_eq_right (le_of_lt hb2)]
      have hd : (l.drop a.toNat).length = l.length - a.toNat :=
        List.length_drop a.toNat l
      rw [List.take_of_length_le (by omega), List.take_of_length_le (by omega)]

theorem currentTripsOf_eq (l : List Trip) (p : Int) (hp : 1 ≤ p) :
    currentTripsOf l p = (l.drop ((p - 1).toNat * 9)).take 9 := by
  unfold currentTripsOf
  simp only [tripsPerPage]
  rw [jsSlice_nonneg l _ _ (by omega) (by omega)]
  have h1 : (p * (9 : Nat) - (9 : Nat)).toNat = (p - 1).toNat * 9 := by
    push_cast
    omega
  rw [h1]
  have h2 : (p * (9 : Nat)).toNat - (p - 1).toNat * 9 = 9 := by
    push_cast
    omega
  rw [h2]

theorem currentTripsOf_length_le (l : List Trip) (p : Int) :
    (currentTripsOf l p).length ≤ 9 := by
  unfold currentTripsOf
  simp only [jsSlice, tripsPerPage]
  rw [List.length_take]
  split_ifs <;> omega

theorem totalPagesOf_spec (l : List Trip) :
    l.length ≤ 9 * totalPagesOf l ∧
      ∀ m, l.length ≤ 9 * m → totalPagesOf l ≤ m := by
  unfold totalPagesOf tripsPerPage
  constructor
  · omega
  · intro m hm
    omega

theorem join_pages :
    ∀ (n : Nat) (l : List Trip), totalPagesOf l = n →
      (List.map (fun i => (l.drop (i * 9)).take 9) (List.range n)).flatten = l := by
  intro n
  induction n with
  | zero =>
    intro l h
    unfold totalPagesOf tripsPerPage at h
    have hl : l.length = 0 := by omega
    rw [List.eq_nil_of_length_eq_zero hl]
    rfl
  | succ n ih =>
    intro l h
    have hdrop : totalPagesOf (l.drop 9) = n := by
      unfold totalPagesOf tripsPerPage at h ⊢
      rw [List.length_drop]
      omega
    rw [List.range_succ_eq_map, List.map_cons, List.flatten_cons, List.map_map]
    have hfun : ((fun i => (l.drop (i * 9)).take 9) ∘ Nat.succ)
        = fun i => ((l.drop 9).drop (i * 9)).take 9 := by
      funext i
      show (l.drop (Nat.succ i * 9)).take 9 = ((l.drop 9).drop (i * 9)).take 9
      rw [List.drop_drop]
      have h9 : Nat.succ i * 9 = 9 + i * 9 := by omega
      rw [h9]
    rw [hfun, ih (l.drop 9) hdrop]
    show (l.drop (0 * 9)).take 9 ++ l.drop 9 = l
    rw [Nat.zero_mul, List.drop_zero]
    exact List.take_append_drop 9 l

/-! ## Concrete fixtures

`trip1` and `trip2` are the two records of the repository's test fixture
(`src/Tests/Trips.test.tsx`).  `bigPayload` is a ten-trip payload used to
drive the pagination state machine across a page boundary. -/

def trip1 : Trip :=
  ⟨"example.jpg", "Trip 1", "Style A", "2022-12-01T00:00:00.000Z"⟩

def trip2 : Trip :=
  ⟨"example2.jpg", "Trip 2", "Style B", "2022-12-02T00:00:00.000Z"⟩

/-- A trip with the given name and style. -/
def mkTrip (name style : String) : Trip :=
  ⟨"example.jpg", name, style, "2022-12-01T00:00:00.000Z"⟩

/-- Ten trips: nine of "Style A" (one full page) and one of "Style B". -/
def bigPayload : TripResponse :=
  ⟨[mkTrip "Trip 1" "Style A", mkTrip "Trip 2" "Style A",
    mkTrip "Trip 3" "Style A", mkTrip "Trip 4" "Style A",
    mkTrip "Trip 5" "Style A", mkTrip "Trip 6" "Style A",
    mkTrip "Trip 7" "Style A", mkTrip "Trip 8" "Style A",
    mkTrip "Trip 9" "Style A", mkTrip "Trip 10" "Style B"]⟩

/-- The state reached by loading `bigPayload`, clicking Next (taking the
enabled control to page 2 of 2), and then selecting the "Style B" facet
(narrowing the filtered list to one trip and hence one page). -/
def buggyState : AppState :=
  applyActions [.pageNext, .setStyle "Style B"] (loadStep (.ok bigPayload) initState)

/-- A trip whose `unitStyleName` is the literal string "All". -/
def allStyleTrip : Trip :=
  ⟨"example.jpg", "Weird", "All", "2022-12-01T00:00:00.000Z"⟩

/-- A loaded two-trip ready state. -/
def readyState : AppState :=
  loadStep (.ok ⟨[trip1, trip2]⟩) initState

/-- Whether a user action is one of the pagination controls. -/
def isPageAction : UiAction → Bool
  | .setSearch _ => false
  | .setStyle _ => false
  | .setSort _ => false
  | _ => true

/-! ## The claims -/

/-- C1: the filter retains exactly the entries satisfying
`(f = "All" ∨ unitStyleName = f) ∧ (q empty ∨ unitName case-insensitively
contains q)` — stated as equality with the filter by the spec's predicate
`specKeep`, preserving order; filtering by "All" with an empty query is the
identity; every filtered result is a subsequence of the input; and for a
facet `f` other than "All" every retained entry has `unitStyleName = f`. -/
theorem c1_filter_characterization :
    (∀ (l : List Trip) (f q : String),
      filterTrips l f q = l.filter (specKeep f q)) ∧
    (∀ l : List Trip, filterTrips l "All" "" = l) ∧
    (∀ (l : List Trip) (f q : String), (filterTrips l f q).Sublist l) ∧
    (∀ (l : List Trip) (f q : String), f ≠ "All" →
      ∀ t ∈ filterTrips l f q, t.unitStyleName = f) :=
  ⟨filterTrips_eq_spec, filterTrips_all_empty,
    fun l f q => filterTrips_sublist l f q,
    fun _ _ _ hf _ ht => filterTrips_style hf ht⟩

theorem c1_filter_characterization_witness :
    trip1.unitStyleName = "Style A" :=
  c1_filter_characterization.2.2.2 [trip1] "Style A" "" (by decide)
    trip1 (by decide)

/-- C2: pagination is correct: `totalPages` is the ceiling of
`filteredCount / 9` (the least page count whose pages can hold the list);
the pages for `currentPage = 1, ..., totalPages` concatenate, in order, to
the filtered sequence; every page (for any integer page number) holds at
most 9 entries; and the page shown for `currentPage = p ≥ 1` is exactly the
index range `[(p-1)*9, p*9)`. -/
theorem c2_pagination :
    ∀ l : List Trip,
      (l.length ≤ 9 * totalPagesOf l ∧
        ∀ m, l.length ≤ 9 * m → totalPagesOf l ≤ m) ∧
      (List.map (fun i : Nat => currentTripsOf l ((i : Int) + 1))
        (List.range (totalPagesOf l))).flatten = l ∧
      (∀ p : Int, (currentTripsOf l p).length ≤ 9) ∧
      (∀ p : Int, 1 ≤ p →
        currentTripsOf l p = (l.drop ((p - 1).toNat * 9)).take 9) := by
  intro l
  refine ⟨totalPagesOf_spec l, ?_, fun p => currentTripsOf_length_le l p,
    fun p hp => currentTripsOf_eq l p hp⟩
  have hstep : ∀ i : Nat,
      currentTripsOf l ((i : Int) + 1) = (l.drop (i * 9)).take 9 := by
    intro i
    rw [currentTripsOf_eq l _ (by omega)]
    have hi : (((i : Int) + 1) - 1).toNat = i := by omega
    rw [hi]
  rw [show (fun i : Nat => currentTripsOf l ((i : Int) + 1))
    = (fun i : Nat => (l.drop (i * 9)).take 9) from funext hstep]
  exact join_pages _ l rfl

theorem c2_pagination_witness :
    totalPagesOf [trip1, trip2] ≤ 1 ∧
    currentTripsOf [trip1, trip2] 1 =
      (([trip1, trip2] : List Trip).drop (((1 : Int) - 1).toNat * 9)).take 9 :=
  ⟨(c2_pagination [trip1, trip2]).1.2 1 (by decide),
    (c2_pagination [trip1, trip2]).2.2.2 1 (by decide)⟩

/-- C3: sorting is a permutation of the input; when every check-in date
parses, ascending order is sorted by non-decreasing timestamp (earliest
first) and descending by non-increasing timestamp (latest first); and on
the test fixture's two trips, dated 2022-12-01 and 2022-12-02, ascending
yields trip 1 before trip 2 and descending reverses that order. -/
theorem c3_sort_direction :
    (∀ (o : SortOrder) (l : List Trip), List.Perm (sortTrips o l) l) ∧
    (∀ l : List Trip, ValidDates l →
      (sortTrips .ascending l).Pairwise (fun a b => timeD a ≤ timeD b) ∧
      (sortTrips .descending l).Pairwise (fun a b => timeD b ≤ timeD a)) ∧
    sortTrips .ascending [trip1, trip2] = [trip1, trip2] ∧
    sortTrips .descending [trip1, trip2] = [trip2, trip1] := by
  refine ⟨sortTrips_perm,
    fun l hv => ⟨sortTrips_pairwise_asc hv, sortTrips_pairwise_desc hv⟩,
    ?_, ?_⟩ <;> decide

theorem c3_sort_direction_witness :
    (sortTrips .ascending [trip2, trip1]).Pairwise
      (fun a b => timeD a ≤ timeD b) :=
  (c3_sort_direction.2.1 [trip2, trip1] (by decide)).1

/-- C4: after any failed fetch — a non-OK HTTP response or a rejected
request — the component renders exactly the fixed error banner
"Failed to load data. Please try again later." and no trip cards,
regardless of the prior state and of which failure occurred. -/
theorem c4_failure_renders_error :
    ∀ (s : AppState) (o : FetchOutcome), o = .httpError ∨ o = .rejected →
      renderTrips (loadStep o s) =
        .errorBanner "Failed to load data. Please try again later." ∧
      viewCards (renderTrips (loadStep o s)) = [] := by
  intro s o h
  rcases h with rfl | rfl <;>
    simp [loadStep, renderTrips, viewCards, failMessage]

theorem c4_failure_renders_error_witness :
    renderTrips (loadStep .rejected initState) =
      .errorBanner "Failed to load data. Please try again later." :=
  (c4_failure_renders_error initState .rejected (Or.inr rfl)).1

/-- C5: the claim fails on the code.  `handlePageChange` stores the page
number without clamping, and no effect resets `currentPage` when the filter
or search changes, so the reachable state `buggyState` — load ten trips
(two pages), click the enabled Next control (page 2), then select the
"Style B" facet (one filtered trip, one page) — has `totalPages = 1` while
`currentPage = 2`, outside `[1, totalPages]`. -/
theorem c5_currentPage_escapes_range :
    totalPages (loadStep (.ok bigPayload) initState) = 2 ∧
    (applyActions [.pageNext] (loadStep (.ok bigPayload) initState)).currentPage = 2 ∧
    totalPages buggyState = 1 ∧
    buggyState.currentPage = 2 := by decide

/-- C6 counterexample: the claim that the facet set contains "All" exactly
once for every input payload fails when a trip's `unitStyleName` is the
literal string "All": the loader then stores the facet list
`["All", "All"]`, in which "All" occurs twice. -/
theorem c6_facets_counterexample :
    (loadStep (.ok ⟨[allStyleTrip]⟩) initState).unitStyles = ["All", "All"] ∧
    ((loadStep (.ok ⟨[allStyleTrip]⟩) initState).unitStyles).count "All" ≠ 1 := by
  decide

/-- C6 (amended): the loader stores "All" at index 0, followed by the
distinct `unitStyleName` values in first-seen input order (a duplicate-free
subsequence of the style sequence containing exactly the styles that
occur); "All" occurs exactly once provided no trip's `unitStyleName` is the
literal string "All". -/
theorem c6_facets :
    (∀ (d : TripResponse) (s : AppState),
      (loadStep (.ok d) s).unitStyles = unitStylesOf (simplifyTrips d)) ∧
    ∀ trips : List Trip,
      (unitStylesOf trips).head? = some "All" ∧
      unitStylesOf trips =
        "All" :: dedupFirstSeen [] (trips.map Trip.unitStyleName) ∧
      (dedupFirstSeen [] (trips.map Trip.unitStyleName)).Nodup ∧
      (dedupFirstSeen [] (trips.map Trip.unitStyleName)).Sublist
        (trips.map Trip.unitStyleName) ∧
      (∀ x, x ∈ unitStylesOf trips ↔
        x = "All" ∨ x ∈ trips.map Trip.unitStyleName) ∧
      ((∀ t ∈ trips, t.unitStyleName ≠ "All") →
        (unitStylesOf trips).count "All" = 1) := by
  refine ⟨fun d s => rfl, fun trips => ⟨rfl, rfl,
    nodup_dedupFirstSeen _ [], sublist_dedupFirstSeen _ [], ?_, ?_⟩⟩
  · intro x
    unfold unitStylesOf
    rw [List.mem_cons, mem_dedupFirstSeen]
    simp
  · intro hno
    unfold unitStylesOf
    rw [List.count_cons_self]
    have hnm : "All" ∉ dedupFirstSeen [] (trips.map Trip.unitStyleName) := by
      intro hc
      have hm := ((mem_dedupFirstSeen _ [] "All").mp hc).1
      obtain ⟨t, ht, hts⟩ := List.mem_map.mp hm
      exact hno t ht hts
    rw [List.count_eq_zero.mpr hnm]

theorem c6_facets_witness :
    (unitStylesOf [trip1, trip2]).count "All" = 1 :=
  ((c6_facets.2 [trip1, trip2]).2.2.2.2.2) (by decide)

/-- C7: re-sorting with the same order is the identity on an already
sorted list (idempotence, for every list, invalid dates included), and for
a list of distinct, parsable check-in dates, descending-sorting the
ascending result yields its exact reverse. -/
theorem c7_sort_idem_reverse :
    (∀ (o : SortOrder) (l : List Trip),
      sortTrips o (sortTrips o l) = sortTrips o l) ∧
    (∀ l : List Trip, ValidDates l →
      l.Pairwise (fun a b => timeD a ≠ timeD b) →
      sortTrips .descending (sortTrips .ascending l) =
        (sortTrips .ascending l).reverse) := by
  constructor
  · intro o l
    exact stableSortBy_idem _ (tripLe_total o) l
  · intro l hv hne
    have hApl : List.Perm (sortTrips .ascending l) l := sortTrips_perm .ascending l
    have hvA : ValidDates (sortTrips .ascending l) :=
      fun t ht => hv t (hApl.mem_iff.mp ht)
    have hle : (sortTrips .ascending l).Pairwise (fun a b => timeD a ≤ timeD b) :=
      sortTrips_pairwise_asc hv
    have hneA : (sortTrips .ascending l).Pairwise (fun a b => timeD a ≠ timeD b) :=
      (List.Perm.pairwise_iff (fun h => h.symm) hApl).mpr hne
    have hlt : (sortTrips .ascending l).Pairwise (fun a b => timeD a < timeD b) :=
      (hle.and hneA).imp fun h => lt_of_le_of_ne h.1 h.2
    have hDpl : List.Perm (sortTrips .descending (sortTrips .ascending l))
        (sortTrips .ascending l) := sortTrips_perm .descending _
    have hDle : (sortTrips .descending (sortTrips .ascending l)).Pairwise
        (fun a b => timeD b ≤ timeD a) := sortTrips_pairwise_desc hvA
    have hDne : (sortTrips .descending (sortTrips .ascending l)).Pairwise
        (fun a b => timeD a ≠ timeD b) :=
      (List.Perm.pairwise_iff (fun h => h.symm) hDpl).mpr hneA
    have hDlt : (sortTrips .descending (sortTrips .ascending l)).Pairwise
        (fun a b => timeD b < timeD a) :=
      (hDle.and hDne).imp fun h => lt_of_le_of_ne h.1 h.2.symm
    have hrevlt : (sortTrips .ascending l).reverse.Pairwise
        (fun a b => timeD b < timeD a) :=
      List.pairwise_reverse.mpr hlt
    have hperm : List.Perm (sortTrips .descending (sortTrips .ascending l))
        ((sortTrips .ascending l).reverse) :=
      hDpl.trans (List.reverse_perm _).symm
    haveI : IsAntisymm Trip (fun a b => timeD b < timeD a) :=
      ⟨fun a b h1 h2 => absurd (lt_trans h1 h2) (lt_irrefl _)⟩
    exact List.eq_of_perm_of_sorted hperm hDlt hrevlt

theorem c7_sort_idem_reverse_witness :
    sortTrips .descending (sortTrips .ascending [trip1, trip2]) =
      (sortTrips .ascending [trip1, trip2]).reverse :=
  c7_sort_idem_reverse.2 [trip1, trip2] (by decide) (by decide)

/-- C8: in every ready render (not loading, no error), the First and Prev
controls are disabled exactly when `currentPage = 1`, and the Next and Last
controls are disabled exactly when `currentPage = totalPages`. -/
theorem c8_pagination_disabled :
    ∀ (s : AppState) (pag : PagFlags), s.loading = false → s.error = none →
      viewPag (renderTrips s) = some pag →
      (pag.firstDisabled = true ↔ s.currentPage = 1) ∧
      (pag.prevDisabled = true ↔ s.currentPage = 1) ∧
      (pag.nextDisabled = true ↔ s.currentPage = (totalPages s : Int)) ∧
      (pag.lastDisabled = true ↔ s.currentPage = (totalPages s : Int)) := by
  intro s pag hl he hp
  simp only [renderTrips, hl, he, Bool.false_eq_true, if_false, viewPag,
    Option.some.injEq] at hp
  subst hp
  simp

theorem c8_pagination_disabled_witness :
    ((⟨true, true, true, true⟩ : PagFlags).firstDisabled = true ↔
      readyState.currentPage = 1) ∧
    ((⟨true, true, true, true⟩ : PagFlags).prevDisabled = true ↔
      readyState.currentPage = 1) ∧
    ((⟨true, true, true, true⟩ : PagFlags).nextDisabled = true ↔
      readyState.currentPage = (totalPages readyState : Int)) ∧
    ((⟨true, true, true, true⟩ : PagFlags).lastDisabled = true ↔
      readyState.currentPage = (totalPages readyState : Int)) :=
  c8_pagination_disabled readyState ⟨true, true, true, true⟩
    (by decide) (by decide) (by decide)

/-- C9: on every successful load, the trips stored by the loader are the
ascending sort of the normalized payload (which is the payload itself,
since normalization projects exactly the four kept fields): a permutation
of the payload that, whenever all dates parse, is already in ascending
check-in timestamp order, before the Sorter effect ever runs. -/
theorem c9_loader_sorted :
    ∀ (d : TripResponse) (s : AppState),
      (loadStep (.ok d) s).trips = sortTrips .ascending (simplifyTrips d) ∧
      simplifyTrips d = d.tripSet ∧
      List.Perm (loadStep (.ok d) s).trips d.tripSet ∧
      (ValidDates d.tripSet →
        (loadStep (.ok d) s).trips.Pairwise (fun a b => timeD a ≤ timeD b)) := by
  intro d s
  have hsimp : simplifyTrips d = d.tripSet := List.map_id d.tripSet
  refine ⟨rfl, hsimp, ?_, ?_⟩
  · show List.Perm (sortTrips .ascending (simplifyTrips d)) d.tripSet
    rw [hsimp]
    exact sortTrips_perm _ _
  · intro hv
    show (sortTrips .ascending (simplifyTrips d)).Pairwise _
    rw [hsimp]
    exact sortTrips_pairwise_asc hv

theorem c9_loader_sorted_witness :
    (loadStep (.ok ⟨[trip2, trip1]⟩) initState).trips.Pairwise
      (fun a b => timeD a ≤ timeD b) :=
  (c9_loader_sorted ⟨[trip2, trip1]⟩ initState).2.2.2 (by decide)

/-- C10: search, facet, and sort-order changes never touch `currentPage`,
and any action that does change `currentPage` is exactly a
`handlePageChange` call on the prior state (the pagination controls are the
only writers of `currentPage`). -/
theorem c10_page_frame :
    (∀ (a : UiAction) (s : AppState), isPageAction a = false →
      (applyAction a s).currentPage = s.currentPage) ∧
    (∀ (a : UiAction) (s : AppState),
      (applyAction a s).currentPage ≠ s.currentPage →
      applyAction a s = handlePageChange (applyAction a s).currentPage s) := by
  constructor
  · intro a s h
    cases a with
    | setSearch q => rfl
    | setStyle f => rfl
    | setSort o => rfl
    | pageFirst => exact absurd h (by simp [isPageAction])
    | pagePrev => exact absurd h (by simp [isPageAction])
    | pageNext => exact absurd h (by simp [isPageAction])
    | pageLast => exact absurd h (by simp [isPageAction])
    | pageItem n => exact absurd h (by simp [isPageAction])
  · intro a s h
    cases a with
    | setSearch q => exact absurd rfl h
    | setStyle f => exact absurd rfl h
    | setSort o => exact absurd rfl h
    | pageFirst =>
      rw [applyAction] at h ⊢
      by_cases hc : s.currentPage = 1
      · rw [if_pos hc] at h
        exact absurd rfl h
      · rw [if_neg hc]
        rfl
    | pagePrev =>
      rw [applyAction] at h ⊢
      by_cases hc : s.currentPage = 1
      · rw [if_pos hc] at h
        exact absurd rfl h
      · rw [if_neg hc]
        rfl
    | pageNext =>
      rw [applyAction] at h ⊢
      by_cases hc : s.currentPage = (totalPages s : Int)
      · rw [if_pos hc] at h
        exact absurd rfl h
      · rw [if_neg hc]
        rfl
    | pageLast =>
      rw [applyAction] at h ⊢
      by_cases hc : s.currentPage = (totalPages s : Int)
      · rw [if_pos hc] at h
        exact absurd rfl h
      · rw [if_neg hc]
        rfl
    | pageItem n =>
      rw [applyAction] at h ⊢
      by_cases hc : 1 ≤ n ∧ n ≤ totalPages s
      · rw [if_pos hc]
        rfl
      · rw [if_neg hc] at h
        exact absurd rfl h

theorem c10_page_frame_witness :
    (applyAction (.setSearch "x") initState).currentPage =
      initState.currentPage ∧
    applyAction .pageNext (loadStep (.ok bigPayload) initState) =
      handlePageChange
        (applyAction .pageNext (loadStep (.ok bigPayload) initState)).currentPage
        (loadStep (.ok bigPayload) initState) :=
  ⟨c10_page_frame.1 (.setSearch "x") initState (by decide),
    c10_page_frame.2 .pageNext (loadStep (.ok bigPayload) initState) (by decide)⟩

end Trips
